import Mathlib

/-
Verification of the cloth-simulation core (mass-spring lattice with damped
Verlet integration and Jakobsen-style constraint relaxation).

Shallow embedding notes.  The source stores all scalar state in IEEE `f32`.
We model an `f32` value by `Option Rat`: `some q` is a finite value with exact
rational magnitude, `none` models a non-finite value (NaN or infinity).
Arithmetic propagates `none`, and division by a finite zero produces `none`,
matching the fact that in IEEE arithmetic `0.0 / 0.0` is NaN and `x / 0.0` is
an infinity; rounding is idealised away (the spec states exact formulas).
Ordered comparisons return `false` when either side is non-finite, as IEEE
comparisons do for NaN.  The square root is modelled exactly on perfect
rational squares; on other inputs its (finite) value is irrelevant to every
theorem below.
-/

namespace Cloth

/-- A modelled f32 value: `some q` is finite, `none` is non-finite (NaN or
an infinity). -/
abbrev F := Option ℚ

/-- Addition on modelled floats; non-finite operands propagate. -/
def fadd : F → F → F
  | some a, some b => some (a + b)
  | _, _ => none

/-- Subtraction on modelled floats; non-finite operands propagate. -/
def fsub : F → F → F
  | some a, some b => some (a - b)
  | _, _ => none

/-- Multiplication on modelled floats; non-finite operands propagate. -/
def fmul : F → F → F
  | some a, some b => some (a * b)
  | _, _ => none

/-- Division on modelled floats: division by a finite zero yields a
non-finite result (NaN or infinity in IEEE terms), and non-finite operands
propagate. -/
def fdiv : F → F → F
  | some a, some b => if b = 0 then none else some (a / b)
  | _, _ => none

/-- Negation on modelled floats. -/
def fneg : F → F
  | some a => some (-a)
  | none => none

/-- IEEE-style less-or-equal: false when either side is non-finite. -/
def fle : F → F → Bool
  | some a, some b => a ≤ b
  | _, _ => false

/-- IEEE-style greater-or-equal: false when either side is non-finite. -/
def fge : F → F → Bool
  | some a, some b => b ≤ a
  | _, _ => false

/-- IEEE-style strict less-than: false when either side is non-finite. -/
def flt : F → F → Bool
  | some a, some b => a < b
  | _, _ => false

/-- Search for an exact natural square root (used only to model `sqrt`
exactly on perfect squares). -/
def sqrtFind (n : Nat) : Option Nat :=
  (List.range (n + 1)).find? (fun k => k * k = n)

/-- Exact rational square root: the exact root on perfect rational squares,
zero elsewhere (the elsewhere-value is irrelevant to the theorems below). -/
def ratSqrt (q : ℚ) : ℚ :=
  match sqrtFind q.num.natAbs, sqrtFind q.den with
  | some a, some b => (a : ℚ) / (b : ℚ)
  | _, _ => 0

/-- Modelled f32 square root: NaN on negative inputs, exact on perfect
squares. -/
def fsqrt : F → F
  | some q => if q < 0 then none else some (ratSqrt q)
  | none => none

/-- A 3-component vector of modelled floats (bevy Vec3). -/
structure V3 where
  x : F
  y : F
  z : F
deriving DecidableEq

/-- A 2-component vector of modelled floats (bevy Vec2). -/
structure V2 where
  x : F
  y : F
deriving DecidableEq

/-- Componentwise vector addition (Vec3 + Vec3). -/
def vadd (u v : V3) : V3 := ⟨fadd u.x v.x, fadd u.y v.y, fadd u.z v.z⟩

/-- Componentwise vector subtraction (Vec3 - Vec3). -/
def vsub (u v : V3) : V3 := ⟨fsub u.x v.x, fsub u.y v.y, fsub u.z v.z⟩

/-- Scalar times vector (f32 * Vec3). -/
def smulV (c : F) (v : V3) : V3 := ⟨fmul c v.x, fmul c v.y, fmul c v.z⟩

/-- Vector times scalar (Vec3 * f32). -/
def vmulS (v : V3) (c : F) : V3 := ⟨fmul v.x c, fmul v.y c, fmul v.z c⟩

/-- Vector divided by scalar (Vec3 / f32). -/
def vdivS (v : V3) (c : F) : V3 := ⟨fdiv v.x c, fdiv v.y c, fdiv v.z c⟩

/-- Componentwise vector negation (-Vec3). -/
def vneg (v : V3) : V3 := ⟨fneg v.x, fneg v.y, fneg v.z⟩

/-- The zero vector (Vec3::ZERO). -/
def vzero3 : V3 := ⟨some 0, some 0, some 0⟩

/-- Vec3::length: square root of the dot product with itself. -/
def vlength (v : V3) : F :=
  fsqrt (fadd (fadd (fmul v.x v.x) (fmul v.y v.y)) (fmul v.z v.z))

/-- Vec3::truncate: drop the z component. -/
def truncV (v : V3) : V2 := ⟨v.x, v.y⟩

/-- Vec2::distance: length of the componentwise difference. -/
def dist2 (u v : V2) : F :=
  fsqrt (fadd (fmul (fsub u.x v.x) (fsub u.x v.x)) (fmul (fsub u.y v.y) (fsub u.y v.y)))

/-- One lattice node: the components attached to a node entity
(Transform translation, PreviousPosition, Force, Mass, the optional Pinned
marker, and the grid Index). -/
structure Particle where
  position : V3
  prevPosition : V3
  force : V3
  mass : F
  pinned : Bool
  gridX : Nat
  gridY : Nat
deriving DecidableEq

/-- A spring constraint: the Edge component holding its two endpoint
entities, modelled as indices into the node list. -/
structure Edge where
  a : Nat
  b : Nat
deriving DecidableEq

/-- The WindWave component: an axis-aligned rectangle (bevy Rect with min
and max corners). -/
structure WindWave where
  rectMin : V2
  rectMax : V2
deriving DecidableEq

/-- The Params resource.  Fields m, g, r[0] (structural rest length),
k[0] (structural stiffness) and enable_wind appear in the Params struct of
simulation.rs; dt, dampen_factor and mouse_force are the further fields read
by physics.rs and ui.rs.  Parameter scalars are finite rationals. -/
structure Params where
  m : ℚ
  g : ℚ
  dt : ℚ
  dampenFactor : ℚ
  r0 : ℚ
  k0 : ℚ
  mouseForce : V3
  numNodesX : Nat
  numNodesY : Nat
  enableWind : Bool
deriving DecidableEq

/-- The gravity pass, per node (apply_gravity in physics.rs): a non-pinned
node accumulates Vec3::new(0, -g, 0) * mass into its force; a pinned node is
untouched. -/
def gravityNode (p : Params) (n : Particle) : Particle :=
  if n.pinned then n
  else { n with force := vadd n.force (vmulS ⟨some 0, some (-p.g), some 0⟩ n.mass) }

/-- The gravity pass over all nodes (apply_gravity in physics.rs). -/
def applyGravity (p : Params) (nodes : List Particle) : List Particle :=
  nodes.map (gravityNode p)

/-- The position-integration pass, per node (update_nodes in physics.rs):
damped Verlet update of every node (the source iterates all nodes, pinned
included), then previous position becomes the old position and the force
accumulator is zeroed. -/
def updateNode (dt : ℚ) (p : Params) (n : Particle) : Particle :=
  let a := vdivS n.force n.mass
  let newPos :=
    vadd (vadd n.position (smulV (some p.dampenFactor) (vsub n.position n.prevPosition)))
      (vmulS (vmulS a (some dt)) (some dt))
  { n with position := newPos, prevPosition := n.position, force := vzero3 }

/-- The position-integration pass over all nodes (update_nodes in
physics.rs). -/
def updateNodes (dt : ℚ) (p : Params) (nodes : List Particle) : List Particle :=
  nodes.map (updateNode dt p)

/-- The in-place displacement the relaxation pass adds to endpoint a of a
spring (body of apply_spring_forces in physics.rs),
0.5 * -((difference / distance) * f / a_mass) * dt * dt, with
difference = a.position - b.position, distance = |difference|,
tension = r[0] - distance and f = -(k[0] * tension). -/
def relaxShiftA (dt : ℚ) (p : Params) (na nb : Particle) : V3 :=
  let difference := vsub na.position nb.position
  let distance := vlength difference
  let tension := fsub (some p.r0) distance
  let f := fneg (fmul (some p.k0) tension)
  vmulS (vmulS (smulV (some (1/2))
    (vneg (vdivS (vmulS (vdivS difference distance) f) na.mass))) (some dt)) (some dt)

/-- The in-place displacement the relaxation pass adds to endpoint b of a
spring, 0.5 * ((difference / distance) * f / b_mass) * dt * dt. -/
def relaxShiftB (dt : ℚ) (p : Params) (na nb : Particle) : V3 :=
  let difference := vsub na.position nb.position
  let distance := vlength difference
  let tension := fsub (some p.r0) distance
  let f := fneg (fmul (some p.k0) tension)
  vmulS (vmulS (smulV (some (1/2))
    (vdivS (vmulS (vdivS difference distance) f) nb.mass)) (some dt)) (some dt)

/-- One spring visit of the relaxation pass (loop body of
apply_spring_forces in physics.rs): fetch both endpoints, compute
difference, distance, tension and f (from the positions as they are at the
start of the visit), then displace each non-pinned endpoint in place.  If
an endpoint entity does not exist the source would abort; the model leaves
the nodes unchanged in that case. -/
def visitEdge (dt : ℚ) (p : Params) (nodes : List Particle) (e : Edge) : List Particle :=
  match nodes[e.a]?, nodes[e.b]? with
  | some na, some nb =>
    let nodes1 :=
      if na.pinned then nodes
      else nodes.set e.a { na with position := vadd na.position (relaxShiftA dt p na nb) }
    if nb.pinned then nodes1
    else nodes1.set e.b { nb with position := vadd nb.position (relaxShiftB dt p na nb) }
  | _, _ => nodes

/-- One full relaxation iteration over all springs (apply_spring_forces in
physics.rs): springs are visited sequentially, each visit seeing the
positions written by earlier visits. -/
def applySpringForces (dt : ℚ) (p : Params) (edges : List Edge)
    (nodes : List Particle) : List Particle :=
  edges.foldl (visitEdge dt p) nodes

/-- A counted for-loop: apply the body n times in sequence. -/
def loopIter (n : Nat) (f : α → α) (a : α) : α :=
  match n with
  | 0 => a
  | Nat.succ k => loopIter k f (f a)

/-- One fixed tick of the integrator (physics_update in physics.rs):
5 substeps of duration dt / 5, each running the gravity pass, then the
integration pass, then 3 relaxation iterations. -/
def physicsUpdate (p : Params) (edges : List Edge) (nodes : List Particle) : List Particle :=
  let stepDt := p.dt / (5 : ℚ)
  loopIter 5
    (fun ns => loopIter 3 (applySpringForces stepDt p edges)
      (updateNodes stepDt p (applyGravity p ns)))
    nodes

/-- Rectangle advance of the wind pass (apply_wind in physics.rs): both x
bounds move by force.x * dt, then both are pulled back by the window width
when the updated min x bound has reached the window width.  The y bounds
are untouched (that code is commented out in the source). -/
def advanceWave (dt width : ℚ) (w : WindWave) (waveForce : V3) : WindWave :=
  let minx := fadd w.rectMin.x (fmul waveForce.x (some dt))
  let maxx := fadd w.rectMax.x (fmul waveForce.x (some dt))
  if fge minx (some width) then
    ⟨⟨fsub minx (some width), w.rectMin.y⟩, ⟨fsub maxx (some width), w.rectMax.y⟩⟩
  else
    ⟨⟨minx, w.rectMin.y⟩, ⟨maxx, w.rectMax.y⟩⟩

/-- Containment test of the wind pass: all four comparisons are inclusive,
and comparisons against a non-finite value are false (IEEE). -/
def inWave (w : WindWave) (v : V3) : Bool :=
  fge v.x w.rectMin.x && fle v.x w.rectMax.x && fge v.y w.rectMin.y && fle v.y w.rectMax.y

/-- Per-node force update of the wind pass: the node query excludes pinned
nodes; a contained node accumulates the wave force. -/
def windNode (waveForce : V3) (w : WindWave) (n : Particle) : Particle :=
  if n.pinned then n
  else if inWave w n.position then { n with force := vadd n.force waveForce } else n

/-- Loop body of apply_wind for a single wave: advance the rectangle, then
update every node against the advanced rectangle. -/
def windWaveStep (dt width : ℚ) (acc : List Particle × List (WindWave × V3))
    (wv : WindWave × V3) : List Particle × List (WindWave × V3) :=
  let w' := advanceWave dt width wv.1 wv.2
  ((acc.1).map (windNode wv.2 w'), acc.2 ++ [(w', wv.2)])

/-- The full simulation state: the node store, the spring store, and the
wind waves (each a rectangle paired with its Force component). -/
structure SimState where
  nodes : List Particle
  edges : List Edge
  waves : List (WindWave × V3)
deriving DecidableEq

/-- The wind pass (apply_wind in physics.rs): waves are processed in
sequence; dt is the full tick duration params.dt and width is the primary
window width. -/
def applyWind (p : Params) (width : ℚ) (s : SimState) : SimState :=
  let r := s.waves.foldl (windWaveStep p.dt width) (s.nodes, [])
  { s with nodes := r.1, waves := r.2 }

/-- Impulse application, per node (left-mouse branch of
handle_mouse_interaction in ui.rs): nodes whose truncated position is
strictly within 150 of the click point accumulate mouse_force, unless
pinned. -/
def impulseNode (p : Params) (pt : V2) (n : Particle) : Particle :=
  if flt (dist2 (truncV n.position) pt) (some 150) then
    (if n.pinned then n else { n with force := vadd n.force p.mouseForce })
  else n

/-- Impulse application over all nodes (left-mouse branch of
handle_mouse_interaction in ui.rs). -/
def applyImpulse (p : Params) (pt : V2) (nodes : List Particle) : List Particle :=
  nodes.map (impulseNode p pt)

/-- Whether a spring is hit by a cut at pt (right-mouse branch of
handle_mouse_interaction in ui.rs): either endpoint within r[0] of the
click point, inclusively. -/
def edgeHit (p : Params) (pt : V2) (nodes : List Particle) (e : Edge) : Bool :=
  match nodes[e.a]?, nodes[e.b]? with
  | some na, some nb =>
    fle (dist2 (truncV na.position) pt) (some p.r0) ||
      fle (dist2 (truncV nb.position) pt) (some p.r0)
  | _, _ => false

/-- Constraint removal (right-mouse branch of handle_mouse_interaction in
ui.rs): scan the springs in order, despawn the first hit spring and stop.
Returns whether a spring was removed together with the remaining
springs. -/
def cutScan (p : Params) (pt : V2) (nodes : List Particle) :
    List Edge → Bool × List Edge
  | [] => (false, [])
  | e :: rest =>
    if edgeHit p pt nodes e then (true, rest)
    else ((cutScan p pt nodes rest).1, e :: (cutScan p pt nodes rest).2)

/-- Reset, per node (reset_nodes_position in simulation.rs): position is
recomputed from the grid index and the current r[0], and the previous
position is set to the same point. -/
def resetNode (p : Params) (n : Particle) : Particle :=
  let v : V3 := ⟨some ((n.gridX : ℚ) * p.r0), some (-((n.gridY : ℚ) * p.r0)), some 0⟩
  { n with position := v, prevPosition := v }

/-- Reset over all nodes (reset_nodes_position in simulation.rs): springs
and every other component are untouched. -/
def resetNodesPosition (p : Params) (nodes : List Particle) : List Particle :=
  nodes.map (resetNode p)

/-- Lattice construction, per node (node-creation loop of the Simulation
plugin in simulation.rs): node (i, k) is placed at (i * r[0], -(k * r[0]), 0)
with previous position equal to position, default mass, zero force, and the
Pinned marker exactly on row k = 0. -/
def buildNode (p : Params) (i k : Nat) : Particle :=
  { position := ⟨some ((i : ℚ) * p.r0), some (-((k : ℚ) * p.r0)), some 0⟩
    prevPosition := ⟨some ((i : ℚ) * p.r0), some (-((k : ℚ) * p.r0)), some 0⟩
    force := vzero3
    mass := some p.m
    pinned := k == 0
    gridX := i
    gridY := k }

/-- All lattice nodes in spawn order (rows outer, columns inner); the
entity of grid cell (i, k) is list index k * num_nodes_x + i. -/
def buildNodes (p : Params) : List Particle :=
  (List.range p.numNodesY).flatMap
    (fun k => (List.range p.numNodesX).map (fun i => buildNode p i k))

/-- All structural springs in spawn order (edge-creation loop of the
Simulation plugin in simulation.rs): for each cell, first the top edge when
k > 0, then the left edge when i > 0. -/
def buildEdges (p : Params) : List Edge :=
  (List.range p.numNodesY).flatMap (fun k =>
    (List.range p.numNodesX).flatMap (fun i =>
      (if 0 < k then [⟨(k - 1) * p.numNodesX + i, k * p.numNodesX + i⟩] else []) ++
        (if 0 < i then [⟨k * p.numNodesX + (i - 1), k * p.numNodesX + i⟩] else [])))

/-- The freshly constructed simulation state (waves are created by a
separate startup system and passed in here). -/
def buildState (p : Params) (waves : List (WindWave × V3)) : SimState :=
  ⟨buildNodes p, buildEdges p, waves⟩

/-- The core operations that mutate the simulation state. -/
inductive Op where
  | tick : Op
  | wind : Op
  | impulse : V2 → Op
  | cut : V2 → Op
  | reset : Op
deriving DecidableEq

/-- Dispatch of one core operation.  The wind pass is gated by enable_wind
(run_if_wind_enabled); the other systems run unconditionally when
triggered. -/
def runOp (p : Params) (width : ℚ) (s : SimState) : Op → SimState
  | Op.tick => { s with nodes := physicsUpdate p s.edges s.nodes }
  | Op.wind => if p.enableWind then applyWind p width s else s
  | Op.impulse pt => { s with nodes := applyImpulse p pt s.nodes }
  | Op.cut pt => { s with edges := (cutScan p pt s.nodes s.edges).2 }
  | Op.reset => { s with nodes := resetNodesPosition p s.nodes }

/-- A finite sequence of core operations, run left to right. -/
def runSeq (p : Params) (width : ℚ) (s : SimState) (ops : List Op) : SimState :=
  ops.foldl (runOp p width) s

@[simp] theorem fadd_none_left (x : F) : fadd none x = none := rfl

@[simp] theorem fadd_none_right (x : F) : fadd x none = none := by cases x <;> rfl

@[simp] theorem fadd_some (a b : ℚ) : fadd (some a) (some b) = some (a + b) := rfl

@[simp] theorem fsub_none_left (x : F) : fsub none x = none := rfl

@[simp] theorem fsub_none_right (x : F) : fsub x none = none := by cases x <;> rfl

@[simp] theorem fsub_some (a b : ℚ) : fsub (some a) (some b) = some (a - b) := rfl

@[simp] theorem fmul_none_left (x : F) : fmul none x = none := rfl

@[simp] theorem fmul_none_right (x : F) : fmul x none = none := by cases x <;> rfl

@[simp] theorem fmul_some (a b : ℚ) : fmul (some a) (some b) = some (a * b) := rfl

@[simp] theorem fdiv_none_left (x : F) : fdiv none x = none := rfl

@[simp] theorem fdiv_none_right (x : F) : fdiv x none = none := by cases x <;> rfl

@[simp] theorem fdiv_some (a b : ℚ) :
    fdiv (some a) (some b) = if b = 0 then none else some (a / b) := rfl

@[simp] theorem fneg_none : fneg none = none := rfl

@[simp] theorem fneg_some (a : ℚ) : fneg (some a) = some (-a) := rfl

/-- Multiplying by two finite scalars in sequence is multiplying by their
product: this identifies the source shape (v * dt) * dt with the spec shape
v * dt^2. -/
theorem fmul_scalar_assoc (x : F) (c d : ℚ) :
    fmul (fmul x (some c)) (some d) = fmul x (some (c * d)) := by
  cases x <;> simp [mul_assoc]

/-- Vector version of fmul_scalar_assoc. -/
theorem vmulS_scalar_assoc (v : V3) (c d : ℚ) :
    vmulS (vmulS v (some c)) (some d) = vmulS v (some (c * d)) := by
  cases v
  simp [vmulS, fmul_scalar_assoc]

/-- Componentwise identity between the source shape of the relaxation
displacement for endpoint a,
0.5 * -(((x / d) * f) / m) * t * t, and the spec shape
(((0.5 * -(x / d)) * f) / m) * t^2. -/
theorem relaxChainNeg (x d fv m : F) (t : ℚ) :
    fmul (fmul (fmul (some ((1 : ℚ)/2)) (fneg (fdiv (fmul (fdiv x d) fv) m))) (some t)) (some t)
      = fmul (fdiv (fmul (fmul (some ((1 : ℚ)/2)) (fneg (fdiv x d))) fv) m) (some (t * t)) := by
  cases x <;> cases d <;> cases fv <;> cases m <;>
    simp only [fmul_none_left, fmul_none_right, fdiv_none_left, fdiv_none_right, fneg_none,
      fmul_some, fdiv_some, fneg_some] <;>
    (try (split_ifs <;>
      simp only [fmul_none_left, fmul_none_right, fdiv_none_left, fdiv_none_right, fneg_none,
        fmul_some, fdiv_some, fneg_some])) <;>
    (try (split_ifs <;>
      simp only [fmul_none_left, fmul_none_right, fdiv_none_left, fdiv_none_right, fneg_none,
        fmul_some, fdiv_some, fneg_some])) <;>
    first
      | rfl
      | (rw [Option.some.injEq]; ring)

/-- Componentwise identity between the source shape of the relaxation
displacement for endpoint b (same as relaxChainNeg without the leading
negation). -/
theorem relaxChainPos (x d fv m : F) (t : ℚ) :
    fmul (fmul (fmul (some ((1 : ℚ)/2)) (fdiv (fmul (fdiv x d) fv) m)) (some t)) (some t)
      = fmul (fdiv (fmul (fmul (some ((1 : ℚ)/2)) (fdiv x d)) fv) m) (some (t * t)) := by
  cases x <;> cases d <;> cases fv <;> cases m <;>
    simp only [fmul_none_left, fmul_none_right, fdiv_none_left, fdiv_none_right,
      fmul_some, fdiv_some] <;>
    (try (split_ifs <;>
      simp only [fmul_none_left, fmul_none_right, fdiv_none_left, fdiv_none_right,
        fmul_some, fdiv_some])) <;>
    (try (split_ifs <;>
      simp only [fmul_none_left, fmul_none_right, fdiv_none_left, fdiv_none_right,
        fmul_some, fdiv_some])) <;>
    first
      | rfl
      | (rw [Option.some.injEq]; ring)

/-- A finite value x satisfies x + d * (x - x) + ((0 / q) * t) * t = x when
q is a nonzero finite divisor; and a non-finite x is reproduced as well.
This is the integration update of a node at rest under zero force. -/
theorem verletFixedComponent (x : F) (d q t : ℚ) (hq : q ≠ 0) :
    fadd (fadd x (fmul (some d) (fsub x x)))
      (fmul (fmul (fdiv (some 0) (some q)) (some t)) (some t)) = x := by
  cases x with
  | none => simp
  | some a =>
    simp only [fsub_some, fmul_some, fadd_some, fdiv_some, if_neg hq]
    rw [zero_div]
    norm_num

theorem ratSqrt_zero : ratSqrt 0 = 0 := by with_unfolding_all decide

theorem ratSqrt_nine : ratSqrt 9 = 3 := by with_unfolding_all decide

/-- The immutable part of a node: mass, pinned flag and grid index.  No
core operation ever writes these components. -/
def nodeMeta (n : Particle) : F × Bool × Nat × Nat := (n.mass, n.pinned, n.gridX, n.gridY)

theorem nodeMeta_gravityNode (p : Params) (n : Particle) :
    nodeMeta (gravityNode p n) = nodeMeta n := by
  unfold gravityNode
  split <;> rfl

theorem nodeMeta_updateNode (dt : ℚ) (p : Params) (n : Particle) :
    nodeMeta (updateNode dt p n) = nodeMeta n := rfl

theorem nodeMeta_windNode (wf : V3) (w : WindWave) (n : Particle) :
    nodeMeta (windNode wf w n) = nodeMeta n := by
  unfold windNode
  split <;> (try split) <;> rfl

theorem nodeMeta_impulseNode (p : Params) (pt : V2) (n : Particle) :
    nodeMeta (impulseNode p pt n) = nodeMeta n := by
  unfold impulseNode
  split <;> (try split) <;> rfl

theorem nodeMeta_resetNode (p : Params) (n : Particle) :
    nodeMeta (resetNode p n) = nodeMeta n := rfl

/-- Mapping a metadata-preserving function over the nodes preserves the
metadata list. -/
theorem map_nodeMeta_map (g : Particle → Particle) (hg : ∀ n, nodeMeta (g n) = nodeMeta n)
    (l : List Particle) : (l.map g).map nodeMeta = l.map nodeMeta := by
  rw [List.map_map]
  exact List.map_congr_left (fun n _ => hg n)

/-- Overwriting one node with a metadata-equal node preserves the metadata
list. -/
theorem map_nodeMeta_set (l : List Particle) (j : Nat) (nj v : Particle)
    (hj : l[j]? = some nj) (hv : nodeMeta v = nodeMeta nj) :
    (l.set j v).map nodeMeta = l.map nodeMeta := by
  induction l generalizing j with
  | nil => simp at hj
  | cons hd tl ih =>
    cases j with
    | zero =>
      simp only [List.getElem?_cons_zero, Option.some.injEq] at hj
      subst hj
      simp [hv]
    | succ k =>
      simp only [List.getElem?_cons_succ] at hj
      simp [ih k hj]

/-- Fold-level preservation of a predicate on the accumulator. -/
theorem foldl_pres {α β : Type _} (P : α → Prop) (f : α → β → α) (l : List β)
    (hf : ∀ a b, b ∈ l → P a → P (f a b)) (a : α) (ha : P a) : P (l.foldl f a) := by
  induction l generalizing a with
  | nil => exact ha
  | cons hd tl ih =>
    exact ih (fun x b hb hx => hf x b (List.mem_cons_of_mem hd hb) hx)
      (f a hd) (hf a hd (List.mem_cons_self hd tl) ha)

/-- Loop-level preservation of a predicate on the loop state. -/
theorem loopIter_pres {α : Type _} (P : α → Prop) (f : α → α)
    (hf : ∀ a, P a → P (f a)) (k : Nat) (a : α) (ha : P a) : P (loopIter k f a) := by
  induction k generalizing a with
  | zero => exact ha
  | succ m ih => exact ih (f a) (hf a ha)

/-- Reading back the overwritten index of a set, when the index is in
range. -/
theorem getElem?_set_of_some {α : Type _} (l : List α) (i : Nat) (x v : α)
    (h : l[i]? = some x) : (l.set i v)[i]? = some v := by
  induction l generalizing i with
  | nil => simp at h
  | cons hd tl ih =>
    cases i with
    | zero => simp
    | succ k =>
      simp only [List.getElem?_cons_succ] at h
      simpa using ih k h

/-- Reading any other index of a set. -/
theorem getElem?_set_of_ne {α : Type _} (l : List α) (i j : Nat) (v : α)
    (h : i ≠ j) : (l.set i v)[j]? = l[j]? := by
  induction l generalizing i j with
  | nil => simp
  | cons hd tl ih =>
    cases i with
    | zero =>
      cases j with
      | zero => exact absurd rfl h
      | succ b => simp
    | succ a =>
      cases j with
      | zero => simp
      | succ b =>
        simp only [List.set_cons_succ, List.getElem?_cons_succ]
        exact ih a b (fun hab => h (by rw [hab]))

theorem map_nodeMeta_visitEdge (dt : ℚ) (p : Params) (nodes : List Particle) (e : Edge) :
    (visitEdge dt p nodes e).map nodeMeta = nodes.map nodeMeta := by
  obtain ⟨ea, eb⟩ := e
  unfold visitEdge
  dsimp only
  cases ha : nodes[ea]? with
  | none => simp
  | some na =>
    cases hb : nodes[eb]? with
    | none => simp
    | some nb =>
      dsimp only
      by_cases hpb : nb.pinned = true
      · rw [if_pos hpb]
        by_cases hpa : na.pinned = true
        · rw [if_pos hpa]
        · rw [if_neg hpa]
          exact map_nodeMeta_set nodes ea na _ ha rfl
      · rw [if_neg hpb]
        by_cases hpa : na.pinned = true
        · rw [if_pos hpa]
          exact map_nodeMeta_set nodes eb nb _ hb rfl
        · rw [if_neg hpa]
          by_cases hab : ea = eb
          · subst hab
            have hna : na = nb := by
              rw [ha] at hb
              exact Option.some.inj hb
            subst hna
            set vA := { na with position := vadd na.position (relaxShiftA dt p na na) } with hvA
            set vB := { na with position := vadd na.position (relaxShiftB dt p na na) } with hvB
            have hmA : nodeMeta vA = nodeMeta na := by
              rw [hvA]
              rfl
            have hmB : nodeMeta vB = nodeMeta na := by
              rw [hvB]
              rfl
            have h1 : (nodes.set ea vA)[ea]? = some vA :=
              getElem?_set_of_some nodes ea na vA ha
            rw [map_nodeMeta_set _ ea vA vB h1 (hmB.trans hmA.symm)]
            exact map_nodeMeta_set nodes ea na vA ha hmA
          · set vA := { na with position := vadd na.position (relaxShiftA dt p na nb) } with hvA
            set vB := { nb with position := vadd nb.position (relaxShiftB dt p na nb) } with hvB
            have hmA : nodeMeta vA = nodeMeta na := by
              rw [hvA]
              rfl
            have hmB : nodeMeta vB = nodeMeta nb := by
              rw [hvB]
              rfl
            have h2 : (nodes.set ea vA)[eb]? = some nb := by
              rw [getElem?_set_of_ne nodes ea eb vA hab]
              exact hb
            rw [map_nodeMeta_set _ eb nb vB h2 hmB]
            exact map_nodeMeta_set nodes ea na vA ha hmA

theorem map_nodeMeta_applyGravity (p : Params) (nodes : List Particle) :
    (applyGravity p nodes).map nodeMeta = nodes.map nodeMeta :=
  map_nodeMeta_map _ (nodeMeta_gravityNode p) nodes

theorem map_nodeMeta_updateNodes (dt : ℚ) (p : Params) (nodes : List Particle) :
    (updateNodes dt p nodes).map nodeMeta = nodes.map nodeMeta :=
  map_nodeMeta_map _ (nodeMeta_updateNode dt p) nodes

theorem map_nodeMeta_applySpringForces (dt : ℚ) (p : Params) (edges : List Edge)
    (nodes : List Particle) :
    (applySpringForces dt p edges nodes).map nodeMeta = nodes.map nodeMeta := by
  unfold applySpringForces
  exact foldl_pres (fun ns => ns.map nodeMeta = nodes.map nodeMeta) (visitEdge dt p) edges
    (fun a b _ hx => (map_nodeMeta_visitEdge dt p a b).trans hx) nodes rfl

theorem map_nodeMeta_physicsUpdate (p : Params) (edges : List Edge) (nodes : List Particle) :
    (physicsUpdate p edges nodes).map nodeMeta = nodes.map nodeMeta := by
  unfold physicsUpdate
  refine loopIter_pres (fun ns : List Particle => ns.map nodeMeta = nodes.map nodeMeta)
    _ ?_ 5 nodes rfl
  intro a hx
  refine loopIter_pres (fun ns : List Particle => ns.map nodeMeta = nodes.map nodeMeta)
    _ ?_ 3 _ ?_
  · intro c hc
    exact (map_nodeMeta_applySpringForces _ p edges c).trans hc
  · exact ((map_nodeMeta_updateNodes _ p _).trans (map_nodeMeta_applyGravity p a)).trans hx

theorem map_nodeMeta_windFold (dt width : ℚ) (waves : List (WindWave × V3)) :
    ∀ acc : List Particle × List (WindWave × V3),
      ((waves.foldl (windWaveStep dt width) acc).1).map nodeMeta = (acc.1).map nodeMeta := by
  induction waves with
  | nil => intro acc; rfl
  | cons w ws ih =>
    intro acc
    rw [List.foldl_cons, ih]
    exact map_nodeMeta_map _ (nodeMeta_windNode w.2 (advanceWave dt width w.1 w.2)) acc.1

theorem map_nodeMeta_applyWind (p : Params) (width : ℚ) (s : SimState) :
    ((applyWind p width s).nodes).map nodeMeta = s.nodes.map nodeMeta := by
  unfold applyWind
  exact map_nodeMeta_windFold p.dt width s.waves (s.nodes, [])

theorem map_nodeMeta_runOp (p : Params) (width : ℚ) (s : SimState) (op : Op) :
    ((runOp p width s op).nodes).map nodeMeta = s.nodes.map nodeMeta := by
  cases op with
  | tick => exact map_nodeMeta_physicsUpdate p s.edges s.nodes
  | wind =>
    unfold runOp
    by_cases hw : p.enableWind = true
    · rw [if_pos hw]
      exact map_nodeMeta_applyWind p width s
    · rw [if_neg hw]
  | impulse pt => exact map_nodeMeta_map _ (nodeMeta_impulseNode p pt) s.nodes
  | cut pt => rfl
  | reset => exact map_nodeMeta_map _ (nodeMeta_resetNode p) s.nodes

theorem map_nodeMeta_runSeq (p : Params) (width : ℚ) (ops : List Op) :
    ∀ s : SimState, ((runSeq p width s ops).nodes).map nodeMeta = s.nodes.map nodeMeta := by
  induction ops with
  | nil => intro s; rfl
  | cons op rest ih =>
    intro s
    exact (ih (runOp p width s op)).trans (map_nodeMeta_runOp p width s op)

theorem flatMap_const_replicate {α β : Type _} (l : List α) (k : Nat) (c : β) :
    (l.flatMap (fun _ => List.replicate k c)) = List.replicate (l.length * k) c := by
  induction l with
  | nil => simp
  | cons hd tl ih =>
    rw [List.flatMap_cons, ih, List.length_cons, Nat.succ_mul, Nat.add_comm, List.replicate_add]

theorem buildNodes_mass (p : Params) :
    (buildNodes p).map Particle.mass = List.replicate (p.numNodesY * p.numNodesX) (some p.m) := by
  unfold buildNodes
  rw [List.map_flatMap]
  have h1 : ∀ k : Nat, ((List.range p.numNodesX).map (fun i => buildNode p i k)).map Particle.mass
      = List.replicate p.numNodesX (some p.m) := by
    intro k
    rw [List.map_map]
    have : (Particle.mass ∘ fun i => buildNode p i k) = fun _ => some p.m := rfl
    rw [this, List.map_const', List.length_range]
  have h2 : (fun k => ((List.range p.numNodesX).map (fun i => buildNode p i k)).map Particle.mass)
      = fun _ : Nat => List.replicate p.numNodesX (some p.m) := funext h1
  rw [h2, flatMap_const_replicate, List.length_range]

theorem map_mass_of_map_nodeMeta (l l2 : List Particle)
    (h : l.map nodeMeta = l2.map nodeMeta) : l.map Particle.mass = l2.map Particle.mass := by
  have hm : ∀ m : List Particle, m.map Particle.mass = (m.map nodeMeta).map Prod.fst := by
    intro m
    rw [List.map_map]
    rfl
  rw [hm, hm, h]

/-- A node at rest: previous position equal to position, zero force
accumulator, and finite nonzero mass.  Lattice construction establishes
this for every node, and every core operation preserves it for pinned
nodes. -/
def PinnedRest (n : Particle) : Prop :=
  n.prevPosition = n.position ∧ n.force = vzero3 ∧ ∃ q : ℚ, n.mass = some q ∧ q ≠ 0

theorem gravityNode_pinned (p : Params) (n : Particle) (hp : n.pinned = true) :
    gravityNode p n = n := by
  unfold gravityNode
  rw [if_pos hp]

theorem windNode_pinned (wf : V3) (w : WindWave) (n : Particle) (hp : n.pinned = true) :
    windNode wf w n = n := by
  unfold windNode
  rw [if_pos hp]

theorem impulseNode_pinned (p : Params) (pt : V2) (n : Particle) (hp : n.pinned = true) :
    impulseNode p pt n = n := by
  unfold impulseNode
  by_cases hd : flt (dist2 (truncV n.position) pt) (some 150) = true
  · rw [if_pos hd, if_pos hp]
  · rw [if_neg hd]

/-- The damped-Verlet update leaves a resting node unchanged: the velocity
term vanishes because position equals previous position, and the
acceleration term vanishes because the force is zero and the mass a
nonzero finite value. -/
theorem updateNode_fixed (dt : ℚ) (p : Params) (n : Particle) (hr : PinnedRest n) :
    updateNode dt p n = n := by
  obtain ⟨hprev, hforce, q, hmass, hq⟩ := hr
  obtain ⟨⟨px, py, pz⟩, prev, frc, mas, pin, gx, gy⟩ := n
  dsimp only at hprev hforce hmass
  subst hprev
  subst hforce
  subst hmass
  unfold updateNode
  simp only [vdivS, vsub, smulV, vadd, vmulS, vzero3]
  rw [verletFixedComponent px p.dampenFactor q dt hq,
    verletFixedComponent py p.dampenFactor q dt hq,
    verletFixedComponent pz p.dampenFactor q dt hq]

theorem applyGravity_pinned (p : Params) (nodes : List Particle) (i : Nat) (n : Particle)
    (h : nodes[i]? = some n) (hp : n.pinned = true) :
    (applyGravity p nodes)[i]? = some n := by
  unfold applyGravity
  rw [List.getElem?_map, h]
  simp [gravityNode_pinned p n hp]

theorem updateNodes_rest (dt : ℚ) (p : Params) (nodes : List Particle) (i : Nat) (n : Particle)
    (h : nodes[i]? = some n) (hr : PinnedRest n) :
    (updateNodes dt p nodes)[i]? = some n := by
  unfold updateNodes
  rw [List.getElem?_map, h]
  simp [updateNode_fixed dt p n hr]

theorem visitEdge_pinned (dt : ℚ) (p : Params) (nodes : List Particle) (e : Edge)
    (i : Nat) (n : Particle) (h : nodes[i]? = some n) (hp : n.pinned = true) :
    (visitEdge dt p nodes e)[i]? = some n := by
  obtain ⟨ea, eb⟩ := e
  unfold visitEdge
  dsimp only
  cases ha : nodes[ea]? with
  | none => exact h
  | some na =>
    cases hb : nodes[eb]? with
    | none => exact h
    | some nb =>
      dsimp only
      by_cases hpb : nb.pinned = true
      · rw [if_pos hpb]
        by_cases hpa : na.pinned = true
        · rw [if_pos hpa]
          exact h
        · rw [if_neg hpa]
          have hnea : ea ≠ i := by
            intro hei
            subst hei
            rw [h] at ha
            rw [← Option.some.inj ha] at hpa
            exact hpa hp
          rw [getElem?_set_of_ne nodes ea i _ hnea]
          exact h
      · rw [if_neg hpb]
        have hneb : eb ≠ i := by
          intro hei
          subst hei
          rw [h] at hb
          rw [← Option.some.inj hb] at hpb
          exact hpb hp
        by_cases hpa : na.pinned = true
        · rw [if_pos hpa, getElem?_set_of_ne nodes eb i _ hneb]
          exact h
        · rw [if_neg hpa]
          have hnea : ea ≠ i := by
            intro hei
            subst hei
            rw [h] at ha
            rw [← Option.some.inj ha] at hpa
            exact hpa hp
          rw [getElem?_set_of_ne _ eb i _ hneb, getElem?_set_of_ne nodes ea i _ hnea]
          exact h

theorem applySpringForces_pinned (dt : ℚ) (p : Params) (edges : List Edge)
    (nodes : List Particle) (i : Nat) (n : Particle)
    (h : nodes[i]? = some n) (hp : n.pinned = true) :
    (applySpringForces dt p edges nodes)[i]? = some n :=
  foldl_pres (fun ns : List Particle => ns[i]? = some n) (visitEdge dt p) edges
    (fun a b _ hx => visitEdge_pinned dt p a b i n hx hp) nodes h

theorem physicsUpdate_pinned (p : Params) (edges : List Edge) (nodes : List Particle)
    (i : Nat) (n : Particle) (h : nodes[i]? = some n) (hp : n.pinned = true)
    (hr : PinnedRest n) :
    (physicsUpdate p edges nodes)[i]? = some n := by
  unfold physicsUpdate
  refine loopIter_pres (fun ns : List Particle => ns[i]? = some n) _ ?_ 5 nodes h
  intro a hx
  refine loopIter_pres (fun ns : List Particle => ns[i]? = some n) _ ?_ 3 _ ?_
  · intro c hc
    exact applySpringForces_pinned _ p edges c i n hc hp
  · exact updateNodes_rest _ p _ i n (applyGravity_pinned p a i n hx hp) hr

theorem windFold_pinned (dt width : ℚ) (waves : List (WindWave × V3)) :
    ∀ (acc : List Particle × List (WindWave × V3)) (i : Nat) (n : Particle),
      (acc.1)[i]? = some n → n.pinned = true →
      ((waves.foldl (windWaveStep dt width) acc).1)[i]? = some n := by
  induction waves with
  | nil => intro acc i n h _; exact h
  | cons w ws ih =>
    intro acc i n h hp
    rw [List.foldl_cons]
    refine ih _ i n ?_ hp
    show ((acc.1).map (windNode w.2 (advanceWave dt width w.1 w.2)))[i]? = some n
    rw [List.getElem?_map, h]
    simp [windNode_pinned w.2 _ n hp]

theorem applyWind_pinned (p : Params) (width : ℚ) (s : SimState) (i : Nat) (n : Particle)
    (h : s.nodes[i]? = some n) (hp : n.pinned = true) :
    ((applyWind p width s).nodes)[i]? = some n :=
  windFold_pinned p.dt width s.waves (s.nodes, []) i n h hp

theorem applyImpulse_pinned (p : Params) (pt : V2) (nodes : List Particle) (i : Nat)
    (n : Particle) (h : nodes[i]? = some n) (hp : n.pinned = true) :
    (applyImpulse p pt nodes)[i]? = some n := by
  unfold applyImpulse
  rw [List.getElem?_map, h]
  simp [impulseNode_pinned p pt n hp]

/-- A pinned resting node is preserved exactly by every core operation
other than reset. -/
theorem runOp_pinned (p : Params) (width : ℚ) (s : SimState) (op : Op)
    (hop : op ≠ Op.reset) (i : Nat) (n : Particle)
    (h : s.nodes[i]? = some n) (hp : n.pinned = true) (hr : PinnedRest n) :
    (runOp p width s op).nodes[i]? = some n := by
  cases op with
  | tick => exact physicsUpdate_pinned p s.edges s.nodes i n h hp hr
  | wind =>
    unfold runOp
    by_cases hw : p.enableWind = true
    · rw [if_pos hw]
      exact applyWind_pinned p width s i n h hp
    · rw [if_neg hw]
      exact h
  | impulse pt => exact applyImpulse_pinned p pt s.nodes i n h hp
  | cut pt => exact h
  | reset => exact absurd rfl hop

/-- Every core operation, reset included, keeps a pinned node pinned and at
rest. -/
theorem runOp_pinned_inv (p : Params) (width : ℚ) (s : SimState) (op : Op) (i : Nat)
    (n : Particle) (h : s.nodes[i]? = some n) (hp : n.pinned = true) (hr : PinnedRest n) :
    ∃ n2 : Particle, (runOp p width s op).nodes[i]? = some n2 ∧ n2.pinned = true ∧
      PinnedRest n2 := by
  cases hop : op with
  | reset =>
    refine ⟨resetNode p n, ?_, hp, ?_⟩
    · show (resetNodesPosition p s.nodes)[i]? = some (resetNode p n)
      unfold resetNodesPosition
      rw [List.getElem?_map, h]
      rfl
    · obtain ⟨hprev, hforce, q, hmass, hq⟩ := hr
      exact ⟨rfl, hforce, q, hmass, hq⟩
  | tick => exact ⟨n, runOp_pinned p width s Op.tick (by simp) i n h hp hr, hp, hr⟩
  | wind => exact ⟨n, runOp_pinned p width s Op.wind (by simp) i n h hp hr, hp, hr⟩
  | impulse pt =>
    exact ⟨n, runOp_pinned p width s (Op.impulse pt) (by simp) i n h hp hr, hp, hr⟩
  | cut pt => exact ⟨n, runOp_pinned p width s (Op.cut pt) (by simp) i n h hp hr, hp, hr⟩

theorem runSeq_pinned_inv (p : Params) (width : ℚ) (ops : List Op) :
    ∀ (s : SimState) (i : Nat) (n : Particle), s.nodes[i]? = some n → n.pinned = true →
      PinnedRest n →
      ∃ n2 : Particle, (runSeq p width s ops).nodes[i]? = some n2 ∧ n2.pinned = true ∧
        PinnedRest n2 := by
  induction ops with
  | nil => intro s i n h hp hr; exact ⟨n, h, hp, hr⟩
  | cons op rest ih =>
    intro s i n h hp hr
    obtain ⟨n2, h2, hp2, hr2⟩ := runOp_pinned_inv p width s op i n h hp hr
    exact ih (runOp p width s op) i n2 h2 hp2 hr2

theorem runSeq_pinned (p : Params) (width : ℚ) (ops : List Op)
    (hops : ∀ o ∈ ops, o ≠ Op.reset) :
    ∀ (s : SimState) (i : Nat) (n : Particle), s.nodes[i]? = some n → n.pinned = true →
      PinnedRest n → (runSeq p width s ops).nodes[i]? = some n := by
  induction ops with
  | nil => intro s i n h _ _; exact h
  | cons op rest ih =>
    intro s i n h hp hr
    have h1 := runOp_pinned p width s op (hops op (List.mem_cons_self op rest)) i n h hp hr
    exact ih (fun o ho => hops o (List.mem_cons_of_mem op ho)) (runOp p width s op) i n h1 hp hr

/-- Every constructed lattice node is at rest, provided the default mass is
nonzero. -/
theorem buildNodes_rest (p : Params) (hm : p.m ≠ 0) (n : Particle)
    (hn : n ∈ buildNodes p) : PinnedRest n := by
  unfold buildNodes at hn
  rw [List.mem_flatMap] at hn
  obtain ⟨k, _, hk⟩ := hn
  rw [List.mem_map] at hk
  obtain ⟨i, _, hi⟩ := hk
  subst hi
  exact ⟨rfl, rfl, p.m, rfl, hm⟩

theorem nodeMeta_getElem? (l l2 : List Particle) (h : l.map nodeMeta = l2.map nodeMeta)
    (i : Nat) : (l[i]?).map nodeMeta = (l2[i]?).map nodeMeta := by
  rw [← List.getElem?_map, ← List.getElem?_map, h]

/-- C10: for every particle and every sequence of core operations
(ticks, wind passes, impulses, constraint removals, resets), the mass is
never modified: in every reachable state the mass list is exactly the
construction-time list, one default mass per lattice node. -/
theorem mass_invariant (p : Params) (width : ℚ) (waves : List (WindWave × V3))
    (ops : List Op) :
    ((runSeq p width (buildState p waves) ops).nodes).map Particle.mass
      = List.replicate (p.numNodesY * p.numNodesX) (some p.m) := by
  rw [map_mass_of_map_nodeMeta _ _ (map_nodeMeta_runSeq p width ops (buildState p waves))]
  exact buildNodes_mass p

theorem resetNode_buildNode (p : Params) (i k : Nat) :
    resetNode p (buildNode p i k) = buildNode p i k := rfl

theorem resetNodesPosition_buildNodes (p : Params) :
    resetNodesPosition p (buildNodes p) = buildNodes p := by
  unfold resetNodesPosition
  have h : ∀ n ∈ buildNodes p, resetNode p n = id n := by
    intro n hn
    unfold buildNodes at hn
    rw [List.mem_flatMap] at hn
    obtain ⟨k, _, hk⟩ := hn
    rw [List.mem_map] at hk
    obtain ⟨i, _, hi⟩ := hk
    subst hi
    rfl
  rw [List.map_congr_left h, List.map_id]

theorem resetNodesPosition_idem (p : Params) (ns : List Particle) :
    resetNodesPosition p (resetNodesPosition p ns) = resetNodesPosition p ns := by
  unfold resetNodesPosition
  rw [List.map_map]
  apply List.map_congr_left
  intro n _
  rfl

/-- C9: reset restores the construction geometry and is idempotent: reset
on the freshly built lattice is the identity (position is grid index times
r0, previous position equal to it, exactly the spawn values); reset twice
equals reset once on any state; and reset never touches the spring
store. -/
theorem reset_idempotent_restores (p : Params) (width : ℚ)
    (waves : List (WindWave × V3)) :
    runOp p width (buildState p waves) Op.reset = buildState p waves ∧
    (∀ s : SimState, runOp p width (runOp p width s Op.reset) Op.reset
        = runOp p width s Op.reset) ∧
    (∀ s : SimState, (runOp p width s Op.reset).edges = s.edges) := by
  refine ⟨?_, ?_, ?_⟩
  · show SimState.mk (resetNodesPosition p (buildNodes p)) (buildEdges p) waves = _
    rw [resetNodesPosition_buildNodes]
    rfl
  · intro s
    show SimState.mk (resetNodesPosition p (resetNodesPosition p s.nodes)) s.edges s.waves = _
    rw [resetNodesPosition_idem]
    rfl
  · intro s
    rfl

/-- C3: one fixed tick runs exactly five substeps of duration dt / 5; each
substep runs the gravity pass, then the integration pass, then exactly
three relaxation iterations, the output of each iteration feeding the next
(no pre-iteration snapshot); and a relaxation iteration is a sequential
left fold of the spring visits over all springs. -/
theorem tick_structure (p : Params) (edges : List Edge) (nodes : List Particle) :
    (physicsUpdate p edges nodes =
      (let dtSub := p.dt / 5
       let substep := fun ns => applySpringForces dtSub p edges
         (applySpringForces dtSub p edges (applySpringForces dtSub p edges
           (updateNodes dtSub p (applyGravity p ns))))
       substep (substep (substep (substep (substep nodes)))))) ∧
    (∀ (dt : ℚ) (ns : List Particle),
      applySpringForces dt p edges ns = edges.foldl (visitEdge dt p) ns) := by
  exact ⟨rfl, fun dt ns => rfl⟩

/-- C4: in the integration pass every non-pinned node is updated to
position + dampen_factor * (position - previous_position)
+ (force / mass) * dt_sub^2, after which the previous position holds the
old position and the force accumulator is zeroed; mass, pinned flag and
grid index are untouched. -/
theorem integration_formula (dt : ℚ) (p : Params) (nodes : List Particle) (i : Nat)
    (n : Particle) (h : nodes[i]? = some n) (hnp : n.pinned = false) :
    (updateNodes dt p nodes)[i]? = some { n with
      position := vadd (vadd n.position (smulV (some p.dampenFactor)
          (vsub n.position n.prevPosition)))
        (vmulS (vdivS n.force n.mass) (some (dt * dt)))
      prevPosition := n.position
      force := vzero3 } := by
  unfold updateNodes
  rw [List.getElem?_map, h, Option.map_some']
  unfold updateNode
  dsimp only
  rw [vmulS_scalar_assoc]

/-- C6: the gravity pass adds (0, -g) * mass into the force accumulator of
every non-pinned node — an addition onto the existing accumulator value, so
any contribution already present (for example wind) is preserved rather
than overwritten — and leaves pinned nodes untouched. -/
theorem gravity_formula (p : Params) (nodes : List Particle) (i : Nat) (n : Particle)
    (h : nodes[i]? = some n) :
    (applyGravity p nodes)[i]? = some (if n.pinned = true then n
      else { n with force := vadd n.force (vmulS ⟨some 0, some (-p.g), some 0⟩ n.mass) }) := by
  unfold applyGravity
  rw [List.getElem?_map, h, Option.map_some']
  rfl

/-- Spec-shaped displacement for endpoint a, written exactly as the spec
formula reads: 0.5 * -(difference/distance) * f / a.mass * dt_sub^2, with
the scalar factors applied left to right and dt_sub^2 a single factor,
where tension = r0 - distance and f = -(k0 * tension). -/
def specShiftA (dt : ℚ) (p : Params) (na nb : Particle) : V3 :=
  let difference := vsub na.position nb.position
  let distance := vlength difference
  let tension := fsub (some p.r0) distance
  let f := fneg (fmul (some p.k0) tension)
  vmulS (vdivS (vmulS (smulV (some ((1 : ℚ)/2)) (vneg (vdivS difference distance))) f)
    na.mass) (some (dt * dt))

/-- Spec-shaped displacement for endpoint b:
0.5 * (difference/distance) * f / b.mass * dt_sub^2. -/
def specShiftB (dt : ℚ) (p : Params) (na nb : Particle) : V3 :=
  let difference := vsub na.position nb.position
  let distance := vlength difference
  let tension := fsub (some p.r0) distance
  let f := fneg (fmul (some p.k0) tension)
  vmulS (vdivS (vmulS (smulV (some ((1 : ℚ)/2)) (vdivS difference distance)) f)
    nb.mass) (some (dt * dt))

/-- The source displacement for endpoint a equals the spec-shaped chain. -/
theorem relaxShiftA_spec (dt : ℚ) (p : Params) (na nb : Particle) :
    relaxShiftA dt p na nb = specShiftA dt p na nb := by
  unfold relaxShiftA specShiftA
  dsimp only
  cases hd : vsub na.position nb.position with
  | mk dx dy dz =>
    simp only [vmulS, vdivS, smulV, vneg, V3.mk.injEq]
    exact ⟨relaxChainNeg dx _ _ _ dt, relaxChainNeg dy _ _ _ dt, relaxChainNeg dz _ _ _ dt⟩

/-- The source displacement for endpoint b equals the spec-shaped chain. -/
theorem relaxShiftB_spec (dt : ℚ) (p : Params) (na nb : Particle) :
    relaxShiftB dt p na nb = specShiftB dt p na nb := by
  unfold relaxShiftB specShiftB
  dsimp only
  cases hd : vsub na.position nb.position with
  | mk dx dy dz =>
    simp only [vmulS, vdivS, smulV, V3.mk.injEq]
    exact ⟨relaxChainPos dx _ _ _ dt, relaxChainPos dy _ _ _ dt, relaxChainPos dz _ _ _ dt⟩

/-- Full characterization of one spring visit on a well-formed spring:
each endpoint gets exactly its displacement added to its position when not
pinned (all other components of the endpoint unchanged), and every other
node is untouched. -/
theorem visitEdge_spec (dt : ℚ) (p : Params) (nodes : List Particle) (e : Edge)
    (na nb : Particle) (hab : e.a ≠ e.b) (ha : nodes[e.a]? = some na)
    (hb : nodes[e.b]? = some nb) :
    (visitEdge dt p nodes e)[e.a]? = some (if na.pinned = true then na
        else { na with position := vadd na.position (relaxShiftA dt p na nb) }) ∧
    (visitEdge dt p nodes e)[e.b]? = some (if nb.pinned = true then nb
        else { nb with position := vadd nb.position (relaxShiftB dt p na nb) }) ∧
    (∀ j : Nat, j ≠ e.a → j ≠ e.b → (visitEdge dt p nodes e)[j]? = nodes[j]?) := by
  obtain ⟨ea, eb⟩ := e
  dsimp only at hab ha hb ⊢
  unfold visitEdge
  dsimp only
  rw [ha, hb]
  dsimp only
  by_cases hpb : nb.pinned = true
  · rw [if_pos hpb]
    by_cases hpa : na.pinned = true
    · rw [if_pos hpa]
      refine ⟨?_, ?_, fun j h1 h2 => rfl⟩
      · rw [ha, if_pos hpa]
      · rw [hb, if_pos hpb]
    · rw [if_neg hpa]
      refine ⟨?_, ?_, fun j h1 h2 => ?_⟩
      · rw [getElem?_set_of_some nodes ea na _ ha, if_neg hpa]
      · rw [getElem?_set_of_ne nodes ea eb _ hab, hb, if_pos hpb]
      · rw [getElem?_set_of_ne nodes ea j _ (fun hx => h1 hx.symm)]
  · rw [if_neg hpb]
    by_cases hpa : na.pinned = true
    · rw [if_pos hpa]
      refine ⟨?_, ?_, fun j h1 h2 => ?_⟩
      · rw [getElem?_set_of_ne nodes eb ea _ (fun hx => hab hx.symm), ha, if_pos hpa]
      · rw [getElem?_set_of_some nodes eb nb _ hb, if_neg hpb]
      · rw [getElem?_set_of_ne nodes eb j _ (fun hx => h2 hx.symm)]
    · rw [if_neg hpa]
      have hsb : (nodes.set ea { na with position := vadd na.position (relaxShiftA dt p na nb) })[eb]? = some nb := by
        rw [getElem?_set_of_ne nodes ea eb _ hab]
        exact hb
      refine ⟨?_, ?_, fun j h1 h2 => ?_⟩
      · rw [getElem?_set_of_ne _ eb ea _ (fun hx => hab hx.symm),
          getElem?_set_of_some nodes ea na _ ha, if_neg hpa]
      · rw [getElem?_set_of_some _ eb nb _ hsb, if_neg hpb]
      · rw [getElem?_set_of_ne _ eb j _ (fun hx => h2 hx.symm),
          getElem?_set_of_ne nodes ea j _ (fun hx => h1 hx.symm)]

/-- C5: each relaxation visit of a spring computes tension = r0 - distance
and f = -(k0 * tension) and adds 0.5 * -(difference/distance) * f / a.mass
* dt_sub^2 (specShiftA) to the position of a when a is not pinned, and
0.5 * (difference/distance) * f / b.mass * dt_sub^2 (specShiftB) to the
position of b when b is not pinned; it changes nothing but positions:
previous positions, force accumulators, masses and flags of both endpoints
are untouched (the record updates fix every other component), and all
other nodes are untouched. -/
theorem relaxation_visit_formula (dt : ℚ) (p : Params) (nodes : List Particle)
    (e : Edge) (na nb : Particle) (hab : e.a ≠ e.b) (ha : nodes[e.a]? = some na)
    (hb : nodes[e.b]? = some nb) :
    (visitEdge dt p nodes e)[e.a]? = some (if na.pinned = true then na
        else { na with position := vadd na.position (specShiftA dt p na nb) }) ∧
    (visitEdge dt p nodes e)[e.b]? = some (if nb.pinned = true then nb
        else { nb with position := vadd nb.position (specShiftB dt p na nb) }) ∧
    (∀ j : Nat, j ≠ e.a → j ≠ e.b → (visitEdge dt p nodes e)[j]? = nodes[j]?) := by
  obtain ⟨hA, hB, hj⟩ := visitEdge_spec dt p nodes e na nb hab ha hb
  refine ⟨?_, ?_, hj⟩
  · rw [hA, relaxShiftA_spec]
  · rw [hB, relaxShiftB_spec]

theorem fdiv_zero (x : F) : fdiv x (some 0) = none := by
  cases x <;> simp

theorem vadd_noneV (v : V3) : vadd v ⟨none, none, none⟩ = ⟨none, none, none⟩ := by
  cases v
  simp [vadd]

/-- With coincident endpoints the a-displacement is a fully non-finite
vector: the normalization divides by a zero distance. -/
theorem relaxShiftA_dist_zero (dt : ℚ) (p : Params) (na nb : Particle)
    (hdist : vlength (vsub na.position nb.position) = some 0) :
    relaxShiftA dt p na nb = ⟨none, none, none⟩ := by
  unfold relaxShiftA
  dsimp only
  rw [hdist]
  cases vsub na.position nb.position with
  | mk dx dy dz => simp [vdivS, vmulS, smulV, vneg, fdiv_zero]

/-- With coincident endpoints the b-displacement is a fully non-finite
vector. -/
theorem relaxShiftB_dist_zero (dt : ℚ) (p : Params) (na nb : Particle)
    (hdist : vlength (vsub na.position nb.position) = some 0) :
    relaxShiftB dt p na nb = ⟨none, none, none⟩ := by
  unfold relaxShiftB
  dsimp only
  rw [hdist]
  cases vsub na.position nb.position with
  | mk dx dy dz => simp [vdivS, vmulS, smulV, fdiv_zero]

/-- C2 amended: for a spring whose endpoints are at zero distance the
relaxation visit does divide by the zero distance: instead of a zero
displacement, every component of each non-pinned endpoint position becomes
non-finite (NaN); pinned endpoints are left unchanged, and previous
positions and force accumulators are untouched either way. -/
theorem relaxation_coincident_nan (dt : ℚ) (p : Params) (nodes : List Particle)
    (e : Edge) (na nb : Particle) (hab : e.a ≠ e.b) (ha : nodes[e.a]? = some na)
    (hb : nodes[e.b]? = some nb)
    (hdist : vlength (vsub na.position nb.position) = some 0) :
    (visitEdge dt p nodes e)[e.a]? = some (if na.pinned = true then na
      else { na with position := ⟨none, none, none⟩ }) ∧
    (visitEdge dt p nodes e)[e.b]? = some (if nb.pinned = true then nb
      else { nb with position := ⟨none, none, none⟩ }) := by
  obtain ⟨hA, hB, _⟩ := visitEdge_spec dt p nodes e na nb hab ha hb
  constructor
  · rw [hA, relaxShiftA_dist_zero dt p na nb hdist, vadd_noneV]
  · rw [hB, relaxShiftB_dist_zero dt p na nb hdist, vadd_noneV]

/-- Concrete simulation parameters used for counterexamples and
witnesses. -/
def paramsW : Params :=
  { m := 1, g := 100, dt := 1/10, dampenFactor := 1, r0 := 40, k0 := 7,
    mouseForce := ⟨some 8000, some 0, some 0⟩, numNodesX := 2, numNodesY := 2,
    enableWind := true }

/-- A concrete non-pinned unit-mass node at the origin. -/
def nodeW : Particle := ⟨vzero3, vzero3, vzero3, some 1, false, 0, 0⟩

/-- A second concrete non-pinned unit-mass node at the origin. -/
def nodeW2 : Particle := ⟨vzero3, vzero3, vzero3, some 1, false, 1, 0⟩

/-- Two distinct non-pinned unit-mass nodes at the same point (they are
joined by the spring (0, 1) in the coincident-spring scenarios). -/
def coincidentPair : List Particle := [nodeW, nodeW2]

/-- A concrete non-pinned unit-mass node at x = 4. -/
def nodeP : Particle := ⟨⟨some 4, some 0, some 0⟩, ⟨some 4, some 0, some 0⟩, vzero3, some 1, false, 0, 0⟩

/-- A concrete non-pinned unit-mass node at x = 1, at distance 3 from
nodeP. -/
def nodeQ : Particle := ⟨⟨some 1, some 0, some 0⟩, ⟨some 1, some 0, some 0⟩, vzero3, some 1, false, 1, 0⟩

/-- Two nodes at distance 3, joined by the spring (0, 1). -/
def pairW : List Particle := [nodeP, nodeQ]

/-- C2 counterexample: on two coincident endpoints the spring visit does
not apply a zero displacement — the first endpoint position becomes
non-finite in every component. -/
theorem relaxation_coincident_counterexample :
    ((visitEdge 1 paramsW coincidentPair ⟨0, 1⟩)[0]?).map Particle.position
        = some ⟨none, none, none⟩ ∧
    (coincidentPair[0]?).map Particle.position = some vzero3 ∧
    (⟨none, none, none⟩ : V3) ≠ vzero3 := by
  with_unfolding_all decide

/-- The wind rectangle used in the C7 counterexample: x span [0, 50], the
window width is 100, the wave force x component 600 and dt = 1/10, so the
translation is by 60. -/
def windWaveW : WindWave := ⟨⟨some 0, some (-1000)⟩, ⟨some 50, some 0⟩⟩

/-- The wave Force component used in the C7 counterexample. -/
def windForceW : V3 := ⟨some 600, some 0, some 0⟩

/-- C7 counterexample: after the advance the leading (right, for this
rightward wind) edge sits at 110, strictly past the window width 100 — the
claim then demands a wrap, i.e. min x = 60 - 100 = -40 — but the code
leaves the rectangle unwrapped at min x = 60, because its wrap condition
tests the min (left) edge, not the leading edge. -/
theorem wind_wrap_counterexample :
    (advanceWave (1/10) 100 windWaveW windForceW).rectMax.x = some 110 ∧
    flt (some 100) ((advanceWave (1/10) 100 windWaveW windForceW).rectMax.x) = true ∧
    (advanceWave (1/10) 100 windWaveW windForceW).rectMin.x = some 60 ∧
    (advanceWave (1/10) 100 windWaveW windForceW).rectMin.x ≠ some (-40) := by
  with_unfolding_all decide

/-- C7 amended: the wind pass translates both x bounds of the rectangle by
force.x * dt and wraps (subtracting the window width from both x bounds)
exactly when the translated min x bound — the left edge, which for the
rightward wind of the source is the trailing edge, not the leading one —
is at or past the window width; it then adds the wave force to the
accumulator of every non-pinned node whose position lies within the
current (post-advance) rectangle, all four bound comparisons inclusive. -/
theorem wind_pass_spec (dt width : ℚ) (w : WindWave) (wf : V3)
    (nodes : List Particle) (i : Nat) (n : Particle) (h : nodes[i]? = some n) :
    (advanceWave dt width w wf
      = (if fge (fadd w.rectMin.x (fmul wf.x (some dt))) (some width) = true
         then WindWave.mk ⟨fsub (fadd w.rectMin.x (fmul wf.x (some dt))) (some width), w.rectMin.y⟩
            ⟨fsub (fadd w.rectMax.x (fmul wf.x (some dt))) (some width), w.rectMax.y⟩
         else WindWave.mk ⟨fadd w.rectMin.x (fmul wf.x (some dt)), w.rectMin.y⟩
            ⟨fadd w.rectMax.x (fmul wf.x (some dt)), w.rectMax.y⟩)) ∧
    (windWaveStep dt width (nodes, []) (w, wf)
      = (nodes.map (windNode wf (advanceWave dt width w wf)),
          [(advanceWave dt width w wf, wf)])) ∧
    ((nodes.map (windNode wf (advanceWave dt width w wf)))[i]?
      = some (if n.pinned = true then n
          else if inWave (advanceWave dt width w wf) n.position = true
            then { n with force := vadd n.force wf } else n)) ∧
    (∀ (w2 : WindWave) (v : V3), inWave w2 v
      = (fge v.x w2.rectMin.x && fle v.x w2.rectMax.x && fge v.y w2.rectMin.y
          && fle v.y w2.rectMax.y)) := by
  refine ⟨rfl, rfl, ?_, fun w2 v => rfl⟩
  rw [List.getElem?_map, h, Option.map_some']
  rfl

/-- C8: the constraint-removal scan reports whether any spring has an
endpoint within r0 of the click point, and removes exactly the first such
spring in scan order (List.eraseP removes the first match and nothing
else): on a hit the spring count drops by exactly one, on a miss the
spring store is returned unchanged. -/
theorem cut_removes_first_hit (p : Params) (pt : V2) (nodes : List Particle)
    (edges : List Edge) :
    cutScan p pt nodes edges
      = (edges.any (edgeHit p pt nodes), edges.eraseP (edgeHit p pt nodes)) ∧
    (edges.any (edgeHit p pt nodes) = true →
      (edges.eraseP (edgeHit p pt nodes)).length + 1 = edges.length) ∧
    (edges.any (edgeHit p pt nodes) = false →
      edges.eraseP (edgeHit p pt nodes) = edges) := by
  induction edges with
  | nil =>
    refine ⟨rfl, ?_, fun _ => rfl⟩
    intro hx
    simp at hx
  | cons e rest ih =>
    obtain ⟨ih1, ih2, ih3⟩ := ih
    by_cases hhit : edgeHit p pt nodes e = true
    · refine ⟨?_, ?_, ?_⟩
      · show (if edgeHit p pt nodes e = true then (true, rest)
            else ((cutScan p pt nodes rest).1, e :: (cutScan p pt nodes rest).2)) = _
        rw [if_pos hhit, List.any_cons, hhit, Bool.true_or,
          List.eraseP_cons_of_pos hhit]
      · intro hx
        rw [List.eraseP_cons_of_pos hhit, List.length_cons]
      · intro hx
        rw [List.any_cons, hhit, Bool.true_or] at hx
        cases hx
    · have hf : edgeHit p pt nodes e = false := by
        cases hx : edgeHit p pt nodes e
        · rfl
        · exact absurd hx hhit
      refine ⟨?_, ?_, ?_⟩
      · show (if edgeHit p pt nodes e = true then (true, rest)
            else ((cutScan p pt nodes rest).1, e :: (cutScan p pt nodes rest).2)) = _
        rw [if_neg hhit, ih1, List.any_cons, hf, Bool.false_or,
          List.eraseP_cons_of_neg hhit]
      · intro hx
        rw [List.any_cons, hf, Bool.false_or] at hx
        rw [List.eraseP_cons_of_neg hhit, List.length_cons, List.length_cons, ih2 hx]
      · intro hx
        rw [List.any_cons, hf, Bool.false_or] at hx
        rw [List.eraseP_cons_of_neg hhit, ih3 hx]

/-- C1: a particle with pinned = true is bitwise untouched by any finite
sequence of core operations that excludes reset.  The state the sequence
acts on is any reachable simulation state: lattice construction (with the
spec-mandated nonzero default mass) followed by an arbitrary prefix of
core operations, resets included.  The conclusion preserves the entire
node, so in particular its position and previous position. -/
theorem pinned_unchanged_by_ops (p : Params) (width : ℚ)
    (waves : List (WindWave × V3)) (hm : p.m ≠ 0) (pre ops : List Op)
    (hops : ∀ o ∈ ops, o ≠ Op.reset) (i : Nat) (n : Particle)
    (h : (runSeq p width (buildState p waves) pre).nodes[i]? = some n)
    (hp : n.pinned = true) :
    (runSeq p width (runSeq p width (buildState p waves) pre) ops).nodes[i]? = some n := by
  have hmeta := nodeMeta_getElem? (runSeq p width (buildState p waves) pre).nodes
    (buildState p waves).nodes (map_nodeMeta_runSeq p width pre (buildState p waves)) i
  rw [h] at hmeta
  cases hb : (buildState p waves).nodes[i]? with
  | none =>
    rw [hb] at hmeta
    simp at hmeta
  | some n0 =>
    rw [hb] at hmeta
    have hmeta2 : nodeMeta n = nodeMeta n0 := by
      simpa using hmeta
    have hp0 : n0.pinned = true := by
      have hq : n.pinned = n0.pinned := congrArg (fun t => t.2.1) hmeta2
      rw [← hq]
      exact hp
    have hmem : n0 ∈ (buildState p waves).nodes := List.getElem?_mem hb
    have hr0 : PinnedRest n0 := buildNodes_rest p hm n0 hmem
    obtain ⟨n2, h2, hp2, hr2⟩ :=
      runSeq_pinned_inv p width pre (buildState p waves) i n0 hb hp0 hr0
    rw [h] at h2
    have hn2 : n = n2 := Option.some.inj h2
    exact runSeq_pinned p width ops hops _ i n h hp (by rw [hn2]; exact hr2)

/-- Witness for C1 at a concrete input: the pinned corner node of a 2 by 2
lattice is untouched by a wind pass followed by a constraint removal. -/
theorem pinned_unchanged_by_ops_witness :
    (runSeq paramsW 100 (runSeq paramsW 100 (buildState paramsW []) [])
        [Op.wind, Op.cut ⟨some 0, some 0⟩]).nodes[0]?
      = some (buildNode paramsW 0 0) :=
  pinned_unchanged_by_ops paramsW 100 [] (by with_unfolding_all decide) []
    [Op.wind, Op.cut ⟨some 0, some 0⟩] (by with_unfolding_all decide) 0
    (buildNode paramsW 0 0) (by with_unfolding_all decide) (by with_unfolding_all decide)

/-- Witness for the amended C2 at a concrete input: a coincident spring
sets the first (non-pinned) endpoint position to the non-finite vector. -/
theorem relaxation_coincident_nan_witness :
    (visitEdge 1 paramsW coincidentPair ⟨0, 1⟩)[0]?
      = some (if nodeW.pinned = true then nodeW
          else { nodeW with position := ⟨none, none, none⟩ }) :=
  (relaxation_coincident_nan 1 paramsW coincidentPair ⟨0, 1⟩ nodeW nodeW2
    (by with_unfolding_all decide) (by with_unfolding_all decide)
    (by with_unfolding_all decide) (by with_unfolding_all decide)).1

/-- Witness for C4 at a concrete input. -/
theorem integration_formula_witness :
    (updateNodes 1 paramsW coincidentPair)[0]? = some { nodeW with
      position := vadd (vadd nodeW.position (smulV (some paramsW.dampenFactor)
          (vsub nodeW.position nodeW.prevPosition)))
        (vmulS (vdivS nodeW.force nodeW.mass) (some (1 * 1)))
      prevPosition := nodeW.position
      force := vzero3 } :=
  integration_formula 1 paramsW coincidentPair 0 nodeW (by with_unfolding_all decide)
    (by with_unfolding_all decide)

/-- Witness for C5 at a concrete input: a spring of length 3 displaces its
first endpoint by the spec formula. -/
theorem relaxation_visit_formula_witness :
    (visitEdge 1 paramsW pairW ⟨0, 1⟩)[0]? = some (if nodeP.pinned = true then nodeP
        else { nodeP with position := vadd nodeP.position (specShiftA 1 paramsW nodeP nodeQ) }) :=
  (relaxation_visit_formula 1 paramsW pairW ⟨0, 1⟩ nodeP nodeQ
    (by with_unfolding_all decide) (by with_unfolding_all decide)
    (by with_unfolding_all decide)).1

/-- Witness for C6 at a concrete input. -/
theorem gravity_formula_witness :
    (applyGravity paramsW coincidentPair)[0]? = some (if nodeW.pinned = true then nodeW
      else { nodeW with force := vadd nodeW.force (vmulS ⟨some 0, some (-paramsW.g), some 0⟩ nodeW.mass) }) :=
  gravity_formula paramsW coincidentPair 0 nodeW (by with_unfolding_all decide)

/-- Witness for the amended C7 at a concrete input. -/
theorem wind_pass_spec_witness :
    (coincidentPair.map (windNode windForceW
        (advanceWave (1/10) 100 windWaveW windForceW)))[0]?
      = some (if nodeW.pinned = true then nodeW
          else if inWave (advanceWave (1/10) 100 windWaveW windForceW) nodeW.position = true
            then { nodeW with force := vadd nodeW.force windForceW } else nodeW) :=
  (wind_pass_spec (1/10) 100 windWaveW windForceW coincidentPair 0 nodeW
    (by with_unfolding_all decide)).2.2.1

/-- Witness for C8 at a concrete input: near a single hit spring the spring
count drops by exactly one. -/
theorem cut_removes_first_hit_witness :
    (([⟨0, 1⟩] : List Edge).eraseP (edgeHit paramsW ⟨some 0, some 0⟩ coincidentPair)).length + 1
      = ([⟨0, 1⟩] : List Edge).length :=
  (cut_removes_first_hit paramsW ⟨some 0, some 0⟩ coincidentPair [⟨0, 1⟩]).2.1
    (by with_unfolding_all decide)

end Cloth
